import Mathlib

/-!
Verification development for the on-chain deposit detection and withdrawal
settlement subsystem: a shallow embedding of the UTXO deposit monitor
(UTXODeposits.ts), the withdrawal settlement path (withdraw/index.post.ts),
the explorer transaction cache (utils/transactions.ts) and the Bitcoin node
access layer (utils/utxo/btc-node.ts), together with theorems settling the
specification's claims about them.
-/

namespace Eco

/-! ## Deposit monitor model (UTXODeposits.ts)

The monitor owns in-memory state: an `active` flag, a consecutive error
counter, the set of processed transaction hashes, the map of last broadcast
confirmation counts, and the pending timer (modelled as the scheduled delay
in milliseconds, `none` when no timer is pending).  The durable transaction
store is a list of (trxId, walletId) pairs; `storeAndBroadcastTransaction`
for a confirmed deposit persists such a record (modelled from the spec:
a PersistedTransaction keyed by (hash, walletId) is created on the first
durable sighting of a deposit), while the pending-confirmation call with the
broadcast-only flag merely publishes an event. -/

/-- An observed transaction as returned by fetchUTXOTransactions, together
with the environment's verdict `storeOk` on whether the detail fetch and
durable store would succeed should this transaction reach the confirmed
branch (the inner try/catch of the poll loop). -/
structure UtxoTxObs where
  hash : String
  confirmations : Nat
  value : Nat
  storeOk : Bool
deriving DecidableEq, Repr

/-- Events emitted by a poll cycle: a pending-confirmation broadcast
(fire-and-forget publish) or a durable store of a confirmed deposit
(the ledger credit). -/
inductive MEvent where
  | pendingBroadcast (hash : String) (confirmations : Nat)
  | confirmedStore (hash : String) (walletId : Nat)
deriving DecidableEq, Repr

/-- The durable transaction store: records keyed by (trxId, walletId). -/
abbrev TxDB := List (String × Nat)

/-- In-memory state of one UTXODeposits monitor instance. -/
structure MonitorState where
  active : Bool
  consecutiveErrors : Nat
  processedTxHashes : List String
  lastBroadcastedConfirmations : List (String × Nat)
  intervalId : Option Nat
deriving DecidableEq, Repr

/-- Fresh monitor state, as set up by the UTXODeposits constructor. -/
def initMonitor : MonitorState :=
  { active := true, consecutiveErrors := 0, processedTxHashes := [],
    lastBroadcastedConfirmations := [], intervalId := none }

/-- MAX_CONSECUTIVE_ERRORS from UTXODeposits.ts. -/
def MAX_CONSECUTIVE_ERRORS : Nat := 5

/-- POLLING_INTERVAL from UTXODeposits.ts (30 seconds, in ms). -/
def POLLING_INTERVAL : Nat := 30000

/-- First value bound to a key in an association list, as
models.transaction lookup / Map.get do. -/
def alookup : List (String × Nat) → String → Option Nat
  | [], _ => none
  | (k, v) :: rest, h => if k = h then some v else alookup rest h

/-- Membership of a hash in the processed set. -/
def hashMem : List String → String → Bool
  | [], _ => false
  | k :: rest, h => if k = h then true else hashMem rest h

/-- Membership of a (trxId, walletId) record in the durable store
(models.transaction.findOne with both keys). -/
def dbMem : TxDB → String → Nat → Bool
  | [], _, _ => false
  | (k, w) :: rest, h, wid =>
      if k = h ∧ w = wid then true else dbMem rest h wid

/-- Accumulator threaded through the per-transaction loop of one poll
cycle. -/
structure Acc where
  processed : List String
  lastB : List (String × Nat)
  db : TxDB
  events : List MEvent
deriving DecidableEq, Repr

/-- One iteration of the transaction loop in UTXODeposits.startPolling:
skip hashes already processed in memory; skip (marking processed) hashes
already persisted for this wallet; below the confirmation threshold,
broadcast a pending update only when the confirmation count differs from
the last broadcast value; at or above the threshold, fetch details and
durably store the deposit, marking the hash processed only on success. -/
def processTx (walletId required : Nat) (a : Acc) (tx : UtxoTxObs) : Acc :=
  if hashMem a.processed tx.hash then a
  else if dbMem a.db tx.hash walletId then
    { a with processed := tx.hash :: a.processed }
  else
    let confirmations := tx.confirmations
    if confirmations < required then
      let lastConfirmations := alookup a.lastB tx.hash
      if lastConfirmations = none ∨ lastConfirmations ≠ some confirmations then
        { a with lastB := (tx.hash, confirmations) :: a.lastB,
                 events := a.events ++ [MEvent.pendingBroadcast tx.hash confirmations] }
      else a
    else
      if tx.storeOk then
        { a with db := (tx.hash, walletId) :: a.db,
                 processed := tx.hash :: a.processed,
                 events := a.events ++ [MEvent.confirmedStore tx.hash walletId] }
      else a

/-- Input of one poll cycle: the fetch either throws (network or upstream
failure, the outer catch) or yields the observed transaction list. -/
inductive PollInput where
  | fetchError
  | fetched (txs : List UtxoTxObs)
deriving DecidableEq, Repr

/-- Delay scheduled for the next poll (lines 246-257 of UTXODeposits.ts):
exponential backoff base * 2 ^ (consecutiveErrors - 1) capped at 5 minutes
when the error counter is nonzero, the plain 30 second interval otherwise. -/
def nextInterval (consecutiveErrors : Nat) : Nat :=
  if consecutiveErrors > 0 then
    min (POLLING_INTERVAL * 2 ^ (consecutiveErrors - 1)) 300000
  else POLLING_INTERVAL

/-- One execution of pollDeposits: inactive monitors return immediately;
a fetch failure increments the consecutive error counter and either stops
the monitor (at MAX_CONSECUTIVE_ERRORS) or schedules a backed-off retry;
a successful fetch processes every transaction, resets the error counter
and schedules the next poll at the base interval. -/
def pollCycle (walletId required : Nat) (s : MonitorState) (db : TxDB)
    (input : PollInput) : MonitorState × TxDB × List MEvent :=
  if s.active = false then (s, db, [])
  else
    match input with
    | PollInput.fetchError =>
        let ce := s.consecutiveErrors + 1
        if ce ≥ MAX_CONSECUTIVE_ERRORS then
          ({ s with consecutiveErrors := ce, active := false, intervalId := none },
           db, [])
        else
          ({ s with consecutiveErrors := ce, intervalId := some (nextInterval ce) },
           db, [])
    | PollInput.fetched txs =>
        if txs.isEmpty then
          ({ s with consecutiveErrors := 0, intervalId := some POLLING_INTERVAL },
           db, [])
        else
          let a := txs.foldl (processTx walletId required)
            { processed := s.processedTxHashes,
              lastB := s.lastBroadcastedConfirmations,
              db := db, events := [] }
          ({ s with processedTxHashes := a.processed,
                    lastBroadcastedConfirmations := a.lastB,
                    consecutiveErrors := 0,
                    intervalId := some POLLING_INTERVAL },
           a.db, a.events)

/-- A step of a monitor's life: either one poll cycle with a given fetch
outcome, or a process restart, which clears the in-memory monitor state
while the durable store survives. -/
inductive ScriptStep where
  | poll (input : PollInput)
  | restart
deriving DecidableEq, Repr

/-- Run one script step, accumulating emitted events. -/
def scriptStep (walletId required : Nat)
    (acc : MonitorState × TxDB × List MEvent) (step : ScriptStep) :
    MonitorState × TxDB × List MEvent :=
  match step with
  | ScriptStep.poll input =>
      let r := pollCycle walletId required acc.1 acc.2.1 input
      (r.1, r.2.1, acc.2.2 ++ r.2.2)
  | ScriptStep.restart => (initMonitor, acc.2.1, acc.2.2)

/-- Run a whole script from a fresh monitor and an empty durable store. -/
def runScript (walletId required : Nat) (steps : List ScriptStep) :
    MonitorState × TxDB × List MEvent :=
  steps.foldl (scriptStep walletId required) (initMonitor, [], [])

/-- Number of durable ledger credits for a given (hash, walletId) among the
emitted events. -/
def creditCount (h : String) (wid : Nat) : List MEvent → Nat
  | [] => 0
  | MEvent.confirmedStore h' w' :: rest =>
      (if h' = h ∧ w' = wid then 1 else 0) + creditCount h wid rest
  | _ :: rest => creditCount h wid rest

/-- Pending-broadcast confirmation values for a given hash, in emission
order. -/
def pendingValues (h : String) : List MEvent → List Nat
  | [] => []
  | MEvent.pendingBroadcast h' c :: rest =>
      if h' = h then c :: pendingValues h rest else pendingValues h rest
  | _ :: rest => pendingValues h rest

/-- Indicator: 1 when a record for (hash, walletId) is in the durable
store, 0 otherwise. -/
def dbInd (h : String) (wid : Nat) (db : TxDB) : Nat :=
  if dbMem db h wid then 1 else 0

/-! ## Withdrawal settlement model (withdraw/index.post.ts)

Amounts are JS numbers; a request amount is modelled by its canonical
decimal form (mantissa without trailing zeros, number of fractional
digits), which is the form Number.prototype.toString produces for values
with a finite decimal representation.  countDecimals inspects exactly that
string: integers yield 0; values below 10^-6 are printed in scientific
notation d.dd...e-k and the code returns the exponent k; other values are
printed plainly and the code counts the digits after the decimal point.
External collaborators of storeWithdrawal that are not under src (address
validation, the Tron and Monero services, the ledger debit) are modelled
as environment inputs; the debit itself is modelled from the spec: the
ledger gateway subtracts the debited total from the wallet balance. -/

/-- Canonical decimal form of a non-negative JS number: value =
mantissa / 10 ^ exp, with no trailing zero in the fractional digits. -/
structure DecAmount where
  mantissa : Nat
  exp : Nat
  canon : exp = 0 ∨ mantissa % 10 ≠ 0

/-- Rational value of a decimal amount. -/
def amountVal (a : DecAmount) : ℚ := (a.mantissa : ℚ) / 10 ^ a.exp

/-- countDecimals from withdraw/index.post.ts, on the canonical decimal
form: 0 for integers; for values below 10^-6 (printed in scientific
notation) the string is split at the e- marker and the exponent is
returned, which equals exp - (number of mantissa digits) + 1; otherwise
the digits after the decimal point are counted, which is exp. -/
def countDecimals (a : DecAmount) : Nat :=
  if a.exp = 0 then 0
  else if a.mantissa < 10 ^ (a.exp - 6) then
    a.exp - (Nat.log 10 a.mantissa + 1) + 1
  else a.exp

/-- Withdrawal fee configuration parsed from token.fee. -/
structure FeeCfg where
  percentage : Option ℚ
  min : Option ℚ
deriving DecidableEq

/-- Token settings relevant to withdrawal (getEcosystemToken result). -/
structure EcoToken where
  precision : Option Nat
  decimals : Option Nat
  fee : Option FeeCfg
deriving DecidableEq

/-- calculateWithdrawalFee from withdraw/index.post.ts. -/
def calculateWithdrawalFee (amount currencyWithdrawalFee minimumWithdrawalFee : ℚ) : ℚ :=
  max ((amount * currencyWithdrawalFee) / 100) minimumWithdrawalFee

/-- The precision cap: token.precision, falling back to token.decimals,
falling back to 8. -/
def maxPrecisionOf (token : EcoToken) : Nat :=
  match token.precision with
  | some p => p
  | none => match token.decimals with
            | some d => d
            | none => 8

/-- The percentage-with-floor service fee, 0 when the token has no fee
configuration. -/
def withdrawalFeeOf (token : EcoToken) (amount : ℚ) : ℚ :=
  match token.fee with
  | none => 0
  | some f => calculateWithdrawalFee amount (f.percentage.getD 0) (f.min.getD 0)

/-- A wallet row: balance, the amount locked in orders, and the per-chain
deposit address map (wallet.address parsed to records of chain to
address). -/
structure WalletRec where
  id : Nat
  userId : Nat
  walletType : String
  balance : ℚ
  inOrder : ℚ
  addresses : List (String × String)
deriving DecidableEq

/-- External collaborators of the withdrawal path, supplied as inputs:
the wallet and token lookups, the address validator verdict, and the Tron
and Monero service availability and answers. -/
structure WdEnv where
  wallet : Option WalletRec
  token : Option EcoToken
  addressValid : Bool
  tronServiceOk : Bool
  tronActivated : Bool
  tronWalletDataOk : Bool
  tronEstimatedFee : ℚ
  moneroServiceOk : Bool
  moneroEstimatedFee : ℚ
deriving DecidableEq

/-- Activation fee: 1 TRX when the Tron destination account is not yet
activated, 0 otherwise. -/
def activationFeeOf (env : WdEnv) (chain : String) : ℚ :=
  if chain = "TRON" ∧ env.tronActivated = false then 1 else 0

/-- Estimated network fee from the chain service; 0 for chains without
dynamic estimation. -/
def estimatedFeeOf (env : WdEnv) (chain : String) : ℚ :=
  if chain = "TRON" then env.tronEstimatedFee
  else if chain = "XMR" then env.moneroEstimatedFee
  else 0

/-- Total fee debited in addition to the principal. -/
def totalFeeOf (env : WdEnv) (chain : String) (token : EcoToken) (amount : ℚ) : ℚ :=
  withdrawalFeeOf token amount + activationFeeOf env chain + estimatedFeeOf env chain

/-- Failure modes of storeWithdrawal, in the order the code raises them. -/
inductive WdError where
  | invalidChain
  | invalidAddress
  | walletNotFound
  | tokenNotFound
  | precisionExceeded (maxAllowed actual : Nat)
  | tronServiceUnavailable
  | walletDataNotFound
  | moneroServiceUnavailable
  | insufficientFunds
deriving DecidableEq

/-- Effects of a successful withdrawal submission: the ledger debit of
principal plus fees, the PENDING transaction record, and the queue
hand-off. -/
structure WdResult where
  walletId : Nat
  debited : ℚ
  balanceAfter : ℚ
  amount : ℚ
  fee : ℚ
  queued : Bool
deriving DecidableEq

/-- storeWithdrawal from withdraw/index.post.ts: validate the chain and
address, look up wallet and token, enforce the decimal-precision cap,
compute service, activation and estimated network fees, check the balance
against principal plus total fee, and only then debit the wallet, create
the PENDING transaction and enqueue it.  Errors produce no effect. -/
def storeWithdrawal (env : WdEnv) (_userId : Nat) (_currency chain : String)
    (amount : DecAmount) (_toAddress : String) : Except WdError WdResult :=
  if chain = "" then Except.error WdError.invalidChain
  else if chain ∉ ["BTC", "LTC", "DOGE", "DASH"] ∧ env.addressValid = false then
    Except.error WdError.invalidAddress
  else
    match env.wallet with
    | none => Except.error WdError.walletNotFound
    | some userWallet =>
      match env.token with
      | none => Except.error WdError.tokenNotFound
      | some token =>
        let maxPrecision := maxPrecisionOf token
        let actualDecimals := countDecimals amount
        if actualDecimals > maxPrecision then
          Except.error (WdError.precisionExceeded maxPrecision actualDecimals)
        else if chain = "TRON" ∧ env.tronServiceOk = false then
          Except.error WdError.tronServiceUnavailable
        else if chain = "TRON" ∧ env.tronWalletDataOk = false then
          Except.error WdError.walletDataNotFound
        else if chain = "XMR" ∧ env.moneroServiceOk = false then
          Except.error WdError.moneroServiceUnavailable
        else
          let totalFee := totalFeeOf env chain token (amountVal amount)
          let totalAmount := amountVal amount + totalFee
          if userWallet.balance < totalAmount then
            Except.error WdError.insufficientFunds
          else
            Except.ok { walletId := userWallet.id, debited := totalAmount,
                        balanceAfter := userWallet.balance - totalAmount,
                        amount := amountVal amount, fee := totalFee,
                        queued := true }

/-- findWalletByAddress from withdraw/index.post.ts: scan all ECO wallets
and return the first whose address map contains the destination address on
any chain. -/
def findWalletByAddress (wallets : List WalletRec) (toAddress : String) : Option WalletRec :=
  (wallets.filter (fun w => w.walletType == "ECO")).find?
    (fun w => w.addresses.any (fun p => p.2 == toAddress))

instance {α β : Type} [DecidableEq α] [DecidableEq β] : DecidableEq (Except α β) :=
  fun x y =>
    match x, y with
    | Except.ok a, Except.ok b =>
        if h : a = b then Decidable.isTrue (by rw [h])
        else Decidable.isFalse (fun hc => h (by injection hc))
    | Except.error a, Except.error b =>
        if h : a = b then Decidable.isTrue (by rw [h])
        else Decidable.isFalse (fun hc => h (by injection hc))
    | Except.ok _, Except.error _ => Decidable.isFalse (fun hc => Except.noConfusion hc)
    | Except.error _, Except.ok _ => Decidable.isFalse (fun hc => Except.noConfusion hc)

/-- Outcome of the withdrawFunds handler: an internal transfer between two
users, or the regular withdrawal path. -/
inductive HandlerResult where
  | chainMissing
  | internalTransfer (fromUserId toUserId : Nat) (currency chain : String) (amount : ℚ)
  | withdrawal (r : Except WdError WdResult)
deriving DecidableEq

/-- The withdrawFunds handler: reject a missing chain, then dispatch to an
internal transfer when the destination address belongs to an internal ECO
wallet (modelled from the spec: processInternalTransfer moves the amount
between the two users and performs none of the withdrawal-path effects),
and to storeWithdrawal otherwise. -/
def withdrawFunds (env : WdEnv) (wallets : List WalletRec) (userId : Nat)
    (currency chain : String) (amount : DecAmount) (toAddress : String) :
    HandlerResult :=
  if chain = "" then HandlerResult.chainMissing
  else
    match findWalletByAddress wallets toAddress with
    | some recipientWallet =>
        HandlerResult.internalTransfer userId recipientWallet.userId currency
          chain (amountVal amount)
    | none =>
        HandlerResult.withdrawal
          (storeWithdrawal env userId currency chain amount toAddress)

/-- The chain-specific external services a withdrawal on this chain
needs are available (Tron service and wallet data for TRON, Monero
service for XMR). -/
def chainServicesOk (env : WdEnv) (chain : String) : Prop :=
  (chain = "TRON" → env.tronServiceOk = true ∧ env.tronWalletDataOk = true) ∧
  (chain = "XMR" → env.moneroServiceOk = true)

instance (env : WdEnv) (chain : String) : Decidable (chainServicesOk env chain) := by
  unfold chainServicesOk
  infer_instance

/-! ## Explorer transaction cache model (utils/transactions.ts)

Time is in seconds.  Redis is modelled by its documented contract: setex
stores a value that expires after the given number of seconds, get returns
the value while it has not expired. -/

/-- CACHE_EXPIRATION from utils/transactions.ts.  It is passed to
redis.setex, whose expiry argument is in seconds, and compared against
differenceInMinutes, which yields minutes. -/
def CACHE_EXPIRATION : Nat := 30

/-- A cached entry: the parsed transaction list and the ISO timestamp
recorded next to it (as seconds since epoch). -/
structure CacheEntry where
  transactions : List String
  timestamp : Nat
deriving DecidableEq

/-- One Redis key with its absolute expiry time. -/
structure RedisEntry where
  key : String
  expireAt : Nat
  entry : CacheEntry
deriving DecidableEq

abbrev RedisStore := List RedisEntry

/-- redis.get: the stored value, unless the key has reached its expiry. -/
def redisGet (r : RedisStore) (now : Nat) (k : String) : Option CacheEntry :=
  match r.find? (fun e => e.key == k) with
  | none => none
  | some e => if now < e.expireAt then some e.entry else none

/-- redis.setex key seconds value. -/
def redisSetex (r : RedisStore) (now : Nat) (k : String) (seconds : Nat)
    (e : CacheEntry) : RedisStore :=
  ⟨k, now + seconds, e⟩ :: r.filter (fun x => x.key ≠ k)

/-- date-fns differenceInMinutes: whole minutes between two instants. -/
def differenceInMinutes (now past : Nat) : Nat := (now - past) / 60

/-- getCachedData from utils/transactions.ts: return the cached
transaction list when the entry is present and its recorded timestamp is
less than CACHE_EXPIRATION minutes old. -/
def getCachedData (r : RedisStore) (now : Nat) (cacheKey : String) :
    Option (List String) :=
  match redisGet r now cacheKey with
  | none => none
  | some cached =>
      if differenceInMinutes now cached.timestamp < CACHE_EXPIRATION then
        some cached.transactions
      else none

/-- ASCII lowercasing of one character, as String.prototype.toLowerCase
acts on the chain identifiers used in cache keys. -/
def lowerChar (c : Char) : Char :=
  if 65 ≤ c.toNat ∧ c.toNat ≤ 90 then Char.ofNat (c.toNat + 32) else c

/-- ASCII lowercasing of a string. -/
def strToLower (s : String) : String := String.mk (s.data.map lowerChar)

/-- The cache key: wallet:(address):transactions:(chain lowercased). -/
def cacheKeyOf (address chain : String) : String :=
  "wallet:" ++ address ++ ":transactions:" ++ strToLower chain

/-- Outcome of one fetchAndParseTransactions call: the returned list,
whether the network was consulted, and the resulting Redis state. -/
structure FetchOutcome where
  result : List String
  networkCalled : Bool
  store : RedisStore
deriving DecidableEq

/-- fetchAndParseTransactions from utils/transactions.ts: with caching
enabled, a cache hit short-circuits the network call; otherwise the
upstream is fetched, parsed and stored with redis.setex for
CACHE_EXPIRATION seconds. -/
def fetchAndParseTransactions (cacheEnabled : Bool) (r : RedisStore)
    (now : Nat) (cacheKey : String) (upstream : List String) : FetchOutcome :=
  if cacheEnabled then
    match getCachedData r now cacheKey with
    | some cached => ⟨cached, false, r⟩
    | none =>
        ⟨upstream, true,
         redisSetex r now cacheKey CACHE_EXPIRATION ⟨upstream, now⟩⟩
  else ⟨upstream, true, r⟩

/-! ## Bitcoin node access layer model (utils/utxo/btc-node.ts) -/

/-- An entry of the node wallet's transaction list. -/
structure NodeTx where
  address : String
  txid : String
deriving DecidableEq

/-- Modelled from the node RPC contract (spec section 6): walletTxs is the
shared watch-only wallet's transaction history most-recent-first, and
listtransactions with arguments (label, count, skip) returns count entries
after skipping the skip most recent ones. -/
def listtransactions (walletTxs : List NodeTx) (count skip : Nat) :
    List NodeTx :=
  (walletTxs.drop skip).take count

/-- BitcoinNodeService.getAddressTransactions: list the wallet's
transactions with count 100 and skip 0, then keep those whose address
field equals the queried address. -/
def getAddressTransactions (walletTxs : List NodeTx) (address : String) :
    List NodeTx :=
  (listtransactions walletTxs 100 0).filter (fun tx => tx.address == address)

/-- Environment for the C5 examples: a token with precision 7. -/
def envPrec7 : WdEnv :=
  { wallet := some ⟨1, 2, "ECO", 1000, 0, []⟩,
    token := some ⟨some 7, some 8, none⟩, addressValid := true,
    tronServiceOk := true, tronActivated := true, tronWalletDataOk := true,
    tronEstimatedFee := 0, moneroServiceOk := true, moneroEstimatedFee := 0 }

/-- Environment for the C5 examples: a token with precision 8. -/
def envPrec8 : WdEnv :=
  { wallet := some ⟨1, 2, "ECO", 1000, 0, []⟩,
    token := some ⟨some 8, some 8, none⟩, addressValid := true,
    tronServiceOk := true, tronActivated := true, tronWalletDataOk := true,
    tronEstimatedFee := 0, moneroServiceOk := true, moneroEstimatedFee := 0 }

/-- The amount 0.00000015 = 15 / 10^8, printed by JS as 1.5e-7. -/
def amtSci : DecAmount := ⟨15, 8, Or.inr (by decide)⟩

/-- The amount 1.123456789. -/
def amtNine : DecAmount := ⟨1123456789, 9, Or.inr (by decide)⟩

/-- The amount 1.12345678. -/
def amtEight : DecAmount := ⟨112345678, 8, Or.inr (by decide)⟩

theorem creditCount_append (h : String) (wid : Nat) (l1 l2 : List MEvent) :
    creditCount h wid (l1 ++ l2) = creditCount h wid l1 + creditCount h wid l2 := by
  induction l1 with
  | nil => simp [creditCount]
  | cons e rest ih =>
      cases e with
      | pendingBroadcast h' c => simp [creditCount, ih]
      | confirmedStore h' w' => simp [creditCount, ih, Nat.add_assoc]

theorem dbInd_le_one (h : String) (wid : Nat) (db : TxDB) :
    dbInd h wid db ≤ 1 := by
  unfold dbInd; split <;> omega

/-- Credit bookkeeping of one transaction step: the number of ledger
credits emitted equals the growth of the store indicator for the hash. -/
theorem processTx_credit_eq (wid req : Nat) (h : String) (a : Acc)
    (tx : UtxoTxObs) :
    creditCount h wid (processTx wid req a tx).events + dbInd h wid a.db
      = creditCount h wid a.events + dbInd h wid (processTx wid req a tx).db := by
  by_cases h1 : hashMem a.processed tx.hash
  · simp [processTx, h1]
  · by_cases h2 : dbMem a.db tx.hash wid
    · simp [processTx, h1, h2]
    · by_cases h3 : tx.confirmations < req
      · by_cases h4 : alookup a.lastB tx.hash = none ∨
            alookup a.lastB tx.hash ≠ some tx.confirmations
        · simp [processTx, h1, h2, h3, h4, creditCount_append, creditCount]
        · simp [processTx, h1, h2, h3, h4]
      · by_cases h5 : tx.storeOk
        · by_cases hh : tx.hash = h
          · subst hh
            simp [processTx, h1, h2, h3, h5, creditCount_append, creditCount,
              dbInd, dbMem]
          · simp [processTx, h1, h2, h3, h5, creditCount_append, creditCount,
              dbInd, dbMem, hh]
        · simp [processTx, h1, h2, h3, h5]

theorem foldl_processTx_credit_eq (wid req : Nat) (h : String)
    (txs : List UtxoTxObs) (a : Acc) :
    creditCount h wid (txs.foldl (processTx wid req) a).events + dbInd h wid a.db
      = creditCount h wid a.events + dbInd h wid (txs.foldl (processTx wid req) a).db := by
  induction txs generalizing a with
  | nil => rfl
  | cons tx rest ih =>
      have h1 := processTx_credit_eq wid req h a tx
      have h2 := ih (processTx wid req a tx)
      simp only [List.foldl_cons] at *
      omega

/-- Credit bookkeeping of one poll cycle. -/
theorem pollCycle_credit_eq (wid req : Nat) (h : String) (s : MonitorState)
    (db : TxDB) (input : PollInput) :
    creditCount h wid (pollCycle wid req s db input).2.2 + dbInd h wid db
      = dbInd h wid (pollCycle wid req s db input).2.1 := by
  unfold pollCycle
  split
  · simp [creditCount]
  · cases input with
    | fetchError =>
        simp only []
        split <;> simp [creditCount]
    | fetched txs =>
        simp only []
        split
        · simp [creditCount]
        · have := foldl_processTx_credit_eq wid req h txs
            { processed := s.processedTxHashes,
              lastB := s.lastBroadcastedConfirmations,
              db := db, events := [] }
          simp only [creditCount] at this
          simpa using this

theorem scriptRun_credit_eq (wid req : Nat) (h : String)
    (steps : List ScriptStep) (s : MonitorState) (db0 : TxDB)
    (evs : List MEvent) :
    creditCount h wid (steps.foldl (scriptStep wid req) (s, db0, evs)).2.2
        + dbInd h wid db0
      = creditCount h wid evs
        + dbInd h wid (steps.foldl (scriptStep wid req) (s, db0, evs)).2.1 := by
  induction steps generalizing s db0 evs with
  | nil => rfl
  | cons step rest ih =>
      cases step with
      | poll input =>
          have h1 := pollCycle_credit_eq wid req h s db0 input
          have h2 := ih (pollCycle wid req s db0 input).1
            (pollCycle wid req s db0 input).2.1
            (evs ++ (pollCycle wid req s db0 input).2.2)
          simp only [List.foldl_cons, scriptStep, creditCount_append] at *
          omega
      | restart =>
          have h2 := ih initMonitor db0 evs
          simp only [List.foldl_cons, scriptStep] at *
          omega

/-- C1. For every transaction hash observed by a deposit monitor in any
poll cycle, if the hash is already in the monitor's in-memory
processedTxHashes set, or a persisted transaction record with that hash and
the monitor's wallet id already exists in the durable store, the poll cycle
skips the transaction entirely (no broadcast, no credit, no store);
consequently a hash observed any number of times across any number of poll
cycles, including after restarts that clear in-memory state, leads to at
most one stored ledger credit. -/
theorem C1_dedup_skip_and_at_most_one_credit :
    (∀ (wid req : Nat) (a : Acc) (tx : UtxoTxObs),
       hashMem a.processed tx.hash = true ∨ dbMem a.db tx.hash wid = true →
       (processTx wid req a tx).events = a.events ∧
       (processTx wid req a tx).db = a.db ∧
       (processTx wid req a tx).lastB = a.lastB) ∧
    (∀ (wid req : Nat) (h : String) (steps : List ScriptStep),
       creditCount h wid (runScript wid req steps).2.2 ≤ 1) := by
  constructor
  · intro wid req a tx hskip
    unfold processTx
    by_cases hp : hashMem a.processed tx.hash
    · simp [hp]
    · rcases hskip with hskip | hskip
      · exact absurd hskip hp
      · simp [hp, hskip]
  · intro wid req h steps
    have heq := scriptRun_credit_eq wid req h steps initMonitor [] []
    have hle := dbInd_le_one h wid
      (steps.foldl (scriptStep wid req) (initMonitor, [], [])).2.1
    have h0 : dbInd h wid ([] : TxDB) = 0 := by simp [dbInd, dbMem]
    have hc : creditCount h wid [] = 0 := rfl
    simp only [runScript]
    omega

theorem C1_dedup_skip_and_at_most_one_credit_witness :
    (hashMem ["h"] "h" = true ∨ dbMem [] "h" 7 = true) ∧
    (processTx 7 4 { processed := ["h"], lastB := [], db := [],
                     events := [] } ⟨"h", 4, 500, true⟩).events = [] := by
  refine ⟨Or.inl (by decide), ?_⟩
  exact (C1_dedup_skip_and_at_most_one_credit.1 7 4
    { processed := ["h"], lastB := [], db := [], events := [] }
    ⟨"h", 4, 500, true⟩ (Or.inl (by decide))).1

/-- C3. A transaction below the confirmation threshold is broadcast as a
pending update in a poll cycle if and only if the freshly fetched
confirmation count differs from the last value recorded in
lastBroadcastedConfirmations for that hash (a first sighting always
broadcasts); for the fixed confirmation sequence [0,0,1,1,2,3] over six
poll cycles with required confirmations 4, exactly the four values
0, 1, 2, 3 are broadcast. -/
theorem C3_pending_broadcast_iff_changed :
    (∀ (wid req : Nat) (a : Acc) (tx : UtxoTxObs),
       hashMem a.processed tx.hash = false →
       dbMem a.db tx.hash wid = false →
       tx.confirmations < req →
       ((processTx wid req a tx).events
           = a.events ++ [MEvent.pendingBroadcast tx.hash tx.confirmations]
         ↔ alookup a.lastB tx.hash ≠ some tx.confirmations)) ∧
    pendingValues "h"
      (runScript 7 4 (List.map
        (fun c => ScriptStep.poll (PollInput.fetched [⟨"h", c, 500, true⟩]))
        [0, 0, 1, 1, 2, 3])).2.2 = [0, 1, 2, 3] := by
  constructor
  · intro wid req a tx h1 h2 h3
    by_cases h4 : alookup a.lastB tx.hash = some tx.confirmations
    · have hbody : (processTx wid req a tx).events = a.events := by
        simp [processTx, h1, h2, h3, h4]
      rw [hbody]
      constructor
      · intro habs
        have := congrArg List.length habs
        simp at this
      · intro habs
        exact absurd h4 habs
    · have hbody : (processTx wid req a tx).events
          = a.events ++ [MEvent.pendingBroadcast tx.hash tx.confirmations] := by
        simp [processTx, h1, h2, h3, h4]
      rw [hbody]
      exact iff_of_true rfl h4
  · decide

theorem C3_pending_broadcast_iff_changed_witness :
    ((processTx 7 4 { processed := [], lastB := [], db := [], events := [] }
        ⟨"h", 0, 500, true⟩).events
      = [] ++ [MEvent.pendingBroadcast "h" 0]
     ↔ alookup [] "h" ≠ some 0) :=
  C3_pending_broadcast_iff_changed.1 7 4
    { processed := [], lastB := [], db := [], events := [] }
    ⟨"h", 0, 500, true⟩ (by decide) (by decide) (by decide)

/-- C6. After 5 consecutive failed poll cycles the monitor stops itself:
its active flag becomes false, the pending timer is cancelled, no further
poll is scheduled, and a poll cycle on an inactive monitor does nothing,
so polling cannot resume without an external restart. -/
theorem C6_fail_stop :
    (∀ (wid req : Nat) (s : MonitorState) (db : TxDB),
       s.active = true → s.consecutiveErrors = 0 →
       ((List.replicate 5 (ScriptStep.poll PollInput.fetchError)).foldl
           (scriptStep wid req) (s, db, [])).1.active = false ∧
       ((List.replicate 5 (ScriptStep.poll PollInput.fetchError)).foldl
           (scriptStep wid req) (s, db, [])).1.intervalId = none ∧
       ((List.replicate 5 (ScriptStep.poll PollInput.fetchError)).foldl
           (scriptStep wid req) (s, db, [])).2.2 = []) ∧
    (∀ (wid req : Nat) (s : MonitorState) (db : TxDB) (input : PollInput),
       s.active = false → pollCycle wid req s db input = (s, db, [])) := by
  constructor
  · intro wid req s db hact hce
    obtain ⟨ac, ce, pr, lb, iv⟩ := s
    simp only at hact hce
    subst hact
    subst hce
    simp [scriptStep, pollCycle, MAX_CONSECUTIVE_ERRORS, nextInterval,
      POLLING_INTERVAL, List.replicate]
  · intro wid req s db input hinact
    simp [pollCycle, hinact]

theorem C6_fail_stop_witness :
    (((List.replicate 5 (ScriptStep.poll PollInput.fetchError)).foldl
        (scriptStep 0 3) (initMonitor, [], [])).1.active = false ∧
     ((List.replicate 5 (ScriptStep.poll PollInput.fetchError)).foldl
        (scriptStep 0 3) (initMonitor, [], [])).1.intervalId = none ∧
     ((List.replicate 5 (ScriptStep.poll PollInput.fetchError)).foldl
        (scriptStep 0 3) (initMonitor, [], [])).2.2 = []) ∧
    pollCycle 0 3 { initMonitor with active := false } [] PollInput.fetchError
      = ({ initMonitor with active := false }, [], []) :=
  ⟨C6_fail_stop.1 0 3 initMonitor [] rfl rfl,
   C6_fail_stop.2 0 3 { initMonitor with active := false } []
     PollInput.fetchError rfl⟩

/-- C7 counterexample. The claim predicts that a poll cycle ending with
consecutive error count 1 schedules the next poll after
base * 2 ^ 1 = 60000 ms; the code schedules it after
base * 2 ^ (1 - 1) = 30000 ms. -/
theorem C7_backoff_counterexample :
    (pollCycle 0 3 initMonitor [] PollInput.fetchError).1.consecutiveErrors = 1 ∧
    (pollCycle 0 3 initMonitor [] PollInput.fetchError).1.intervalId
      = some POLLING_INTERVAL ∧
    POLLING_INTERVAL ≠ min (POLLING_INTERVAL * 2 ^ 1) 300000 := by
  decide

/-- C7 (amended). A poll cycle that ends with a nonzero consecutive error
count n (1 ≤ n < 5) schedules the next poll after the 30-second base
interval multiplied by 2 to the power of (n - 1), capped at 5 minutes;
a cycle ending with zero consecutive errors schedules it after the base
interval. -/
theorem C7_backoff_amended :
    ∀ (wid req : Nat) (s : MonitorState) (db : TxDB),
      s.active = true →
      (s.consecutiveErrors + 1 < MAX_CONSECUTIVE_ERRORS →
        (pollCycle wid req s db PollInput.fetchError).1.consecutiveErrors
            = s.consecutiveErrors + 1 ∧
        (pollCycle wid req s db PollInput.fetchError).1.intervalId
            = some (min (POLLING_INTERVAL * 2 ^ (s.consecutiveErrors + 1 - 1))
                300000)) ∧
      (∀ txs : List UtxoTxObs,
        (pollCycle wid req s db (PollInput.fetched txs)).1.consecutiveErrors
            = 0 ∧
        (pollCycle wid req s db (PollInput.fetched txs)).1.intervalId
            = some POLLING_INTERVAL) := by
  intro wid req s db hact
  constructor
  · intro hlt
    rw [MAX_CONSECUTIVE_ERRORS] at hlt
    have hge : ¬ s.consecutiveErrors + 1 ≥ MAX_CONSECUTIVE_ERRORS := by
      rw [MAX_CONSECUTIVE_ERRORS]; omega
    simp [pollCycle, hact, hge, nextInterval]
  · intro txs
    by_cases he : txs.isEmpty <;> simp [pollCycle, hact, he]

theorem C7_backoff_amended_witness :
    ((pollCycle 0 3 { initMonitor with consecutiveErrors := 1 } []
        PollInput.fetchError).1.consecutiveErrors = 2 ∧
     (pollCycle 0 3 { initMonitor with consecutiveErrors := 1 } []
        PollInput.fetchError).1.intervalId
       = some (min (POLLING_INTERVAL * 2 ^ (1 + 1 - 1)) 300000)) ∧
    (pollCycle 0 3 initMonitor [] (PollInput.fetched [])).1.intervalId
      = some POLLING_INTERVAL :=
  ⟨(C7_backoff_amended 0 3 { initMonitor with consecutiveErrors := 1 } []
      rfl).1 (by decide),
   ((C7_backoff_amended 0 3 initMonitor [] rfl).2 []).2⟩

/-- Reduction of storeWithdrawal once the chain, address, wallet and token
gates pass. -/
theorem storeWithdrawal_reduce (env : WdEnv) (userId : Nat)
    (currency chain : String) (amount : DecAmount) (toAddress : String)
    (w : WalletRec) (tok : EcoToken)
    (hw : env.wallet = some w) (htok : env.token = some tok)
    (hchain : chain ≠ "")
    (haddr : chain ∈ ["BTC", "LTC", "DOGE", "DASH"] ∨ env.addressValid = true) :
    storeWithdrawal env userId currency chain amount toAddress
      = (if countDecimals amount > maxPrecisionOf tok then
           Except.error (WdError.precisionExceeded (maxPrecisionOf tok)
             (countDecimals amount))
         else if chain = "TRON" ∧ env.tronServiceOk = false then
           Except.error WdError.tronServiceUnavailable
         else if chain = "TRON" ∧ env.tronWalletDataOk = false then
           Except.error WdError.walletDataNotFound
         else if chain = "XMR" ∧ env.moneroServiceOk = false then
           Except.error WdError.moneroServiceUnavailable
         else if w.balance < amountVal amount
             + totalFeeOf env chain tok (amountVal amount) then
           Except.error WdError.insufficientFunds
         else
           Except.ok { walletId := w.id,
                       debited := amountVal amount
                         + totalFeeOf env chain tok (amountVal amount),
                       balanceAfter := w.balance - (amountVal amount
                         + totalFeeOf env chain tok (amountVal amount)),
                       amount := amountVal amount,
                       fee := totalFeeOf env chain tok (amountVal amount),
                       queued := true }) := by
  have haddr' : ¬ (chain ∉ ["BTC", "LTC", "DOGE", "DASH"]
      ∧ env.addressValid = false) := by
    rcases haddr with h | h
    · intro hc; exact hc.1 h
    · intro hc; rw [h] at hc; exact Bool.noConfusion hc.2
  simp only [storeWithdrawal, hw, htok]
  rw [if_neg hchain, if_neg haddr']

/-- Evaluation of storeWithdrawal on the BTC chain with a fee-free token:
all chain-specific fees are zero and the full amount is debited. -/
theorem storeWithdrawal_btc_ok (env : WdEnv) (w : WalletRec) (tok : EcoToken)
    (userId : Nat) (currency toAddress : String) (amount : DecAmount)
    (hw : env.wallet = some w) (htok : env.token = some tok)
    (hfee : tok.fee = none)
    (hprec : ¬ countDecimals amount > maxPrecisionOf tok)
    (hbal : ¬ w.balance < amountVal amount) :
    storeWithdrawal env userId currency "BTC" amount toAddress
      = Except.ok { walletId := w.id, debited := amountVal amount,
                    balanceAfter := w.balance - amountVal amount,
                    amount := amountVal amount, fee := 0, queued := true } := by
  have h0 : totalFeeOf env "BTC" tok (amountVal amount) = 0 := by
    simp [totalFeeOf, withdrawalFeeOf, hfee, activationFeeOf, estimatedFeeOf]
  rw [storeWithdrawal_reduce env userId currency "BTC" amount toAddress w tok
    hw htok (by decide) (Or.inl (by decide))]
  rw [if_neg hprec, if_neg (fun hc => absurd hc.1 (by decide)),
    if_neg (fun hc => absurd hc.1 (by decide)),
    if_neg (fun hc => absurd hc.1 (by decide))]
  rw [h0, add_zero]
  rw [if_neg hbal]

/-- C4. The computed service fee equals
max(amount * percentage / 100, minimumFlatFee); with amount 1000,
percentage 0.5 and minimum 2 the fee is 5, and with amount 100,
percentage 0.5 and minimum 2 the fee is 2. -/
theorem C4_service_fee_formula :
    (∀ amount percentage minimum : ℚ,
       calculateWithdrawalFee amount percentage minimum
         = max (amount * percentage / 100) minimum) ∧
    calculateWithdrawalFee 1000 (1 / 2) 2 = 5 ∧
    calculateWithdrawalFee 100 (1 / 2) 2 = 2 := by
  refine ⟨fun a p m => rfl, ?_, ?_⟩
  · norm_num [calculateWithdrawalFee]
  · norm_num [calculateWithdrawalFee]

/-- C2 counterexample. The code checks the raw balance, not balance minus
inOrder: with balance 100, inOrder 50, amount 60 and zero fees, the
available balance 100 - 50 = 50 is below the requested 60, yet the
withdrawal succeeds and debits the wallet instead of failing with
InsufficientFunds. -/
theorem C2_available_balance_counterexample :
    (100 : ℚ) - 50 < 60 + 0 ∧
    storeWithdrawal
      { wallet := some ⟨1, 2, "ECO", 100, 50, []⟩,
        token := some ⟨none, none, none⟩, addressValid := true,
        tronServiceOk := true, tronActivated := true, tronWalletDataOk := true,
        tronEstimatedFee := 0, moneroServiceOk := true, moneroEstimatedFee := 0 }
      2 "USDT" "BTC" ⟨60, 0, Or.inl rfl⟩ "addr"
      = Except.ok { walletId := 1, debited := 60, balanceAfter := 40,
                    amount := 60, fee := 0, queued := true } := by
  constructor
  · norm_num
  · rw [storeWithdrawal_btc_ok _ ⟨1, 2, "ECO", 100, 50, []⟩ ⟨none, none, none⟩
      2 "USDT" "addr" ⟨60, 0, Or.inl rfl⟩ rfl rfl rfl (by decide)
      (by norm_num [amountVal])]
    norm_num [amountVal]

/-- C2 (amended). For every withdrawal request that passes the chain,
address, wallet, token, precision and chain-service gates, if the wallet's
balance (inOrder is not consulted) is less than the requested amount plus
the total fee, the operation fails with InsufficientFunds and no state is
mutated; on success the new balance is the old balance minus principal
plus fees and is never negative. -/
theorem C2_insufficient_funds_amended :
    ∀ (env : WdEnv) (userId : Nat) (currency chain : String)
      (amount : DecAmount) (toAddress : String) (w : WalletRec) (tok : EcoToken),
      env.wallet = some w → env.token = some tok → chain ≠ "" →
      (chain ∈ ["BTC", "LTC", "DOGE", "DASH"] ∨ env.addressValid = true) →
      countDecimals amount ≤ maxPrecisionOf tok →
      chainServicesOk env chain →
      ((w.balance < amountVal amount + totalFeeOf env chain tok (amountVal amount) →
         storeWithdrawal env userId currency chain amount toAddress
           = Except.error WdError.insufficientFunds) ∧
       (∀ r, storeWithdrawal env userId currency chain amount toAddress
           = Except.ok r →
         r.balanceAfter
             = w.balance - (amountVal amount
                 + totalFeeOf env chain tok (amountVal amount))
           ∧ 0 ≤ r.balanceAfter)) := by
  intro env userId currency chain amount toAddress w tok hw htok hchain haddr
    hprec hsvc
  have hts : ¬ (chain = "TRON" ∧ env.tronServiceOk = false) := by
    rintro ⟨h1, h2⟩
    rw [(hsvc.1 h1).1] at h2
    exact Bool.noConfusion h2
  have htw : ¬ (chain = "TRON" ∧ env.tronWalletDataOk = false) := by
    rintro ⟨h1, h2⟩
    rw [(hsvc.1 h1).2] at h2
    exact Bool.noConfusion h2
  have hxm : ¬ (chain = "XMR" ∧ env.moneroServiceOk = false) := by
    rintro ⟨h1, h2⟩
    rw [hsvc.2 h1] at h2
    exact Bool.noConfusion h2
  rw [storeWithdrawal_reduce env userId currency chain amount toAddress w tok
    hw htok hchain haddr]
  rw [if_neg (by omega : ¬ countDecimals amount > maxPrecisionOf tok)]
  rw [if_neg hts, if_neg htw, if_neg hxm]
  by_cases hbal : w.balance < amountVal amount
      + totalFeeOf env chain tok (amountVal amount)
  · rw [if_pos hbal]
    exact ⟨fun _ => rfl, fun r hr => Except.noConfusion hr⟩
  · rw [if_neg hbal]
    refine ⟨fun hlt => absurd hlt hbal, fun r hr => ?_⟩
    injection hr with h
    subst h
    exact ⟨rfl, sub_nonneg.mpr (not_lt.mp hbal)⟩

theorem C2_insufficient_funds_amended_witness :
    storeWithdrawal
      { wallet := some ⟨1, 2, "ECO", 50, 0, []⟩,
        token := some ⟨none, none, none⟩, addressValid := true,
        tronServiceOk := true, tronActivated := true, tronWalletDataOk := true,
        tronEstimatedFee := 0, moneroServiceOk := true, moneroEstimatedFee := 0 }
      2 "USDT" "BTC" ⟨60, 0, Or.inl rfl⟩ "addr"
      = Except.error WdError.insufficientFunds :=
  (C2_insufficient_funds_amended
    { wallet := some ⟨1, 2, "ECO", 50, 0, []⟩,
      token := some ⟨none, none, none⟩, addressValid := true,
      tronServiceOk := true, tronActivated := true, tronWalletDataOk := true,
      tronEstimatedFee := 0, moneroServiceOk := true, moneroEstimatedFee := 0 }
    2 "USDT" "BTC" ⟨60, 0, Or.inl rfl⟩ "addr" ⟨1, 2, "ECO", 50, 0, []⟩
    ⟨none, none, none⟩ rfl rfl (by decide) (Or.inl (by decide)) (by decide)
    (by decide)).1
    (by norm_num [amountVal, totalFeeOf, withdrawalFeeOf, activationFeeOf,
      estimatedFeeOf])

/-- countDecimals agrees with the number of fractional digits for amounts
printed in plain decimal notation (integers, or values at least 10^-6). -/
theorem countDecimals_plain (a : DecAmount)
    (hplain : a.exp = 0 ∨ ¬ a.mantissa < 10 ^ (a.exp - 6)) :
    countDecimals a = a.exp := by
  unfold countDecimals
  by_cases hz : a.exp = 0
  · simp [hz]
  · rcases hplain with h | h
    · exact absurd h hz
    · rw [if_neg hz, if_neg h]

/-- C5 counterexample. The amount 0.00000015 (15 / 10^8, eight decimal
places) is printed by JS as 1.5e-7, so countDecimals takes the scientific
notation branch and returns the exponent 7; with token precision 7 the
withdrawal is accepted even though the amount has 8 > 7 decimal places. -/
theorem C5_precision_counterexample :
    amtSci.exp > 7 ∧
    maxPrecisionOf ⟨some 7, some 8, none⟩ = 7 ∧
    countDecimals amtSci = 7 ∧
    storeWithdrawal envPrec7 2 "BTC" "BTC" amtSci "addr"
      = Except.ok { walletId := 1, debited := 15 / 10 ^ 8,
                    balanceAfter := 1000 - 15 / 10 ^ 8,
                    amount := 15 / 10 ^ 8, fee := 0, queued := true } := by
  have hlog : Nat.log 10 15 = 1 :=
    Nat.log_eq_of_pow_le_of_lt_pow (by norm_num) (by norm_num)
  have hcd : countDecimals amtSci = 7 := by
    unfold countDecimals amtSci
    rw [if_neg (by decide), if_pos (by decide), hlog]
    decide
  refine ⟨by decide, by decide, hcd, ?_⟩
  rw [storeWithdrawal_btc_ok envPrec7 ⟨1, 2, "ECO", 1000, 0, []⟩
    ⟨some 7, some 8, none⟩ 2 "BTC" "addr" amtSci rfl rfl rfl
    (by rw [hcd]; decide)
    (by norm_num [amountVal, amtSci])]
  norm_num [amountVal, amtSci]

/-- C5 (amended). For every withdrawal request whose amount is printed in
plain decimal notation (an integer, or a value at least 10^-6), if its
number of decimal places exceeds the token's configured precision (falling
back to decimals, then to 8), the withdrawal is rejected with a
precision-exceeded error before any balance mutation; 1.123456789 on a
token with precision 8 is rejected, while 1.12345678 is accepted. -/
theorem C5_precision_amended :
    (∀ (env : WdEnv) (userId : Nat) (currency chain : String)
       (amount : DecAmount) (toAddress : String) (w : WalletRec) (tok : EcoToken),
       env.wallet = some w → env.token = some tok → chain ≠ "" →
       (chain ∈ ["BTC", "LTC", "DOGE", "DASH"] ∨ env.addressValid = true) →
       (amount.exp = 0 ∨ ¬ amount.mantissa < 10 ^ (amount.exp - 6)) →
       amount.exp > maxPrecisionOf tok →
       storeWithdrawal env userId currency chain amount toAddress
         = Except.error (WdError.precisionExceeded (maxPrecisionOf tok)
             amount.exp)) ∧
    storeWithdrawal envPrec8 2 "BTC" "BTC" amtNine "addr"
      = Except.error (WdError.precisionExceeded 8 9) ∧
    storeWithdrawal envPrec8 2 "BTC" "BTC" amtEight "addr"
      = Except.ok { walletId := 1, debited := 112345678 / 10 ^ 8,
                    balanceAfter := 1000 - 112345678 / 10 ^ 8,
                    amount := 112345678 / 10 ^ 8, fee := 0, queued := true } := by
  refine ⟨?_, by decide, ?_⟩
  · intro env userId currency chain amount toAddress w tok hw htok hchain haddr
      hplain hgt
    rw [storeWithdrawal_reduce env userId currency chain amount toAddress w tok
      hw htok hchain haddr]
    rw [countDecimals_plain amount hplain]
    rw [if_pos hgt]
  · rw [storeWithdrawal_btc_ok envPrec8 ⟨1, 2, "ECO", 1000, 0, []⟩
      ⟨some 8, some 8, none⟩ 2 "BTC" "addr" amtEight rfl rfl rfl (by decide)
      (by norm_num [amountVal, amtEight])]
    norm_num [amountVal, amtEight]

theorem C5_precision_amended_witness :
    storeWithdrawal envPrec8 2 "BTC" "BTC" amtNine "addr"
      = Except.error (WdError.precisionExceeded
          (maxPrecisionOf ⟨some 8, some 8, none⟩) 9) :=
  C5_precision_amended.1 envPrec8 2 "BTC" "BTC" amtNine "addr"
    ⟨1, 2, "ECO", 1000, 0, []⟩ ⟨some 8, some 8, none⟩ rfl rfl (by decide)
    (Or.inl (by decide)) (Or.inr (by decide)) (by decide)

/-- C9. When the destination address equals an address of any internal ECO
wallet on any chain of its address map, the handler dispatches to an
internal transfer between the two users, and the withdrawal path (fee
calculation, sufficiency check, pending transaction, queue submission) is
not taken. -/
theorem C9_internal_transfer_dispatch :
    ∀ (env : WdEnv) (wallets : List WalletRec) (userId : Nat)
      (currency chain : String) (amount : DecAmount) (toAddress : String),
      chain ≠ "" →
      (∃ w ∈ wallets, w.walletType = "ECO" ∧ ∃ p ∈ w.addresses, p.2 = toAddress) →
      ∃ w', findWalletByAddress wallets toAddress = some w' ∧
        withdrawFunds env wallets userId currency chain amount toAddress
          = HandlerResult.internalTransfer userId w'.userId currency chain
              (amountVal amount) := by
  intro env wallets userId currency chain amount toAddress hchain hex
  obtain ⟨w, hwmem, hty, p, hpmem, hpaddr⟩ := hex
  have hmemf : w ∈ wallets.filter (fun x => x.walletType == "ECO") :=
    List.mem_filter.mpr ⟨hwmem, by simp [hty]⟩
  have hpred : w.addresses.any (fun q => q.2 == toAddress) = true := by
    rw [List.any_eq_true]
    exact ⟨p, hpmem, by simp [hpaddr]⟩
  have hsome : (findWalletByAddress wallets toAddress).isSome := by
    rw [findWalletByAddress, List.find?_isSome]
    exact ⟨w, hmemf, hpred⟩
  obtain ⟨w', hw'⟩ := Option.isSome_iff_exists.mp hsome
  refine ⟨w', hw', ?_⟩
  rw [withdrawFunds, if_neg hchain, hw']

theorem C9_internal_transfer_dispatch_witness :
    withdrawFunds
      { wallet := none, token := none, addressValid := true,
        tronServiceOk := true, tronActivated := true, tronWalletDataOk := true,
        tronEstimatedFee := 0, moneroServiceOk := true, moneroEstimatedFee := 0 }
      [⟨6, 10, "ECO", 0, 0, [("BTC", "dest")]⟩] 2 "USDT" "BTC"
      ⟨60, 0, Or.inl rfl⟩ "dest"
      = HandlerResult.internalTransfer 2 10 "USDT" "BTC" 60 := by
  obtain ⟨w', hfind, hres⟩ := C9_internal_transfer_dispatch
    { wallet := none, token := none, addressValid := true,
      tronServiceOk := true, tronActivated := true, tronWalletDataOk := true,
      tronEstimatedFee := 0, moneroServiceOk := true, moneroEstimatedFee := 0 }
    [⟨6, 10, "ECO", 0, 0, [("BTC", "dest")]⟩] 2 "USDT" "BTC"
    ⟨60, 0, Or.inl rfl⟩ "dest" (by decide)
    ⟨⟨6, 10, "ECO", 0, 0, [("BTC", "dest")]⟩, by decide, rfl,
      ("BTC", "dest"), by decide, rfl⟩
  have hc : findWalletByAddress [⟨6, 10, "ECO", 0, 0, [("BTC", "dest")]⟩] "dest"
      = some ⟨6, 10, "ECO", 0, 0, [("BTC", "dest")]⟩ := by decide
  rw [hc] at hfind
  injection hfind with hweq
  subst hweq
  rw [hres]
  norm_num [amountVal]

/-- C8 (code bug). The cache stores entries with redis.setex and the
constant 30, which Redis interprets as seconds, while the freshness guard
compares differenceInMinutes against the same constant as minutes: a
second fetch for the same (address, chain) key 600 seconds (10 minutes)
after a successful fetch finds the Redis entry expired and makes a network
call, although the claim promises cache service for 30 minutes; only
within the first 30 seconds is the cached list returned without a network
call. -/
theorem C8_cache_ttl_unit_bug :
    (fetchAndParseTransactions true [] 0 (cacheKeyOf "addr1" "ETH")
        ["tx1"]).networkCalled = true ∧
    (fetchAndParseTransactions true
        (fetchAndParseTransactions true [] 0 (cacheKeyOf "addr1" "ETH")
          ["tx1"]).store
        600 (cacheKeyOf "addr1" "ETH") ["tx2"]).networkCalled = true ∧
    (fetchAndParseTransactions true
        (fetchAndParseTransactions true [] 0 (cacheKeyOf "addr1" "ETH")
          ["tx1"]).store
        10 (cacheKeyOf "addr1" "ETH") ["tx2"]).networkCalled = false ∧
    (fetchAndParseTransactions true
        (fetchAndParseTransactions true [] 0 (cacheKeyOf "addr1" "ETH")
          ["tx1"]).store
        10 (cacheKeyOf "addr1" "ETH") ["tx2"]).result = ["tx1"] := by
  decide

/-- C10. The node-backed transaction lookup inspects only the 100 most
recent transactions of the shared watch-only wallet (listtransactions with
count 100, skip 0) and returns exactly those whose address field equals
the queried address; a transaction outside the 100 most recent is never
returned. -/
theorem C10_node_lookup_window :
    ∀ (walletTxs : List NodeTx) (address : String) (tx : NodeTx),
      tx ∈ getAddressTransactions walletTxs address
        ↔ tx ∈ walletTxs.take 100 ∧ tx.address = address := by
  intro walletTxs address tx
  simp [getAddressTransactions, listtransactions, List.mem_filter]

end Eco
